import Mathlib

set_option maxRecDepth 4000

attribute [local semireducible] Rat.add Rat.mul Rat.inv Rat.sub Rat.ofScientific

/-!
Verification development for the flot_inventory capture pipeline.

The Python services (vision, local_vision, video_processor, transcription)
are shallowly embedded: floats become rationals, dicts become structures with
optional fields, exceptions become `Except`, and every loop is written as a
structural (or fueled) recursion so that all definitions evaluate by `decide`.
-/

/-- Python `int()` truncation toward zero on a rational. -/
def pyInt (q : ℚ) : ℤ := if 0 ≤ q then Rat.floor q else -(Rat.floor (-q))

/-- Python banker's rounding (round-half-to-even) of a rational to an integer. -/
def roundHalfEven (q : ℚ) : ℤ :=
  let f := Rat.floor q
  let r := q - (f : ℚ)
  if r < 1/2 then f
  else if 1/2 < r then f + 1
  else if f % 2 = 0 then f else f + 1

/-- Python `round(q, 2)`. -/
def pyRound2 (q : ℚ) : ℚ := (roundHalfEven (q * 100) : ℚ) / 100

/-- Python `round(q, 1)`. -/
def pyRound1 (q : ℚ) : ℚ := (roundHalfEven (q * 10) : ℚ) / 10

/-- One DP row update for the longest-common-subsequence table.
`left` carries the freshly computed cell to the west. -/
def lcsGo (ca : Char) : Nat → List Char → List Nat → List Nat
  | _, [], _ => []
  | _, _ :: _, [] => []
  | left, cb :: bs, pj1 :: rest =>
      let pj := rest.headD 0
      let nj := if cb = ca then pj1 + 1 else max left pj
      nj :: lcsGo ca nj bs rest

/-- Length of the longest common subsequence of two character lists. -/
def lcs (a b : List Char) : Nat :=
  (a.foldl (fun prev ca => 0 :: lcsGo ca 0 b prev)
    (List.replicate (b.length + 1) 0)).getLastD 0

/-- rapidfuzz `fuzz.ratio` on char lists: Indel similarity scaled to 0..100
(`200*lcs/(m+n)`, with 100 for two empty strings). -/
def ratioChars (a b : List Char) : ℚ :=
  if a.length + b.length = 0 then 100
  else 200 * (lcs a b : ℚ) / ((a.length : ℚ) + (b.length : ℚ))

/-- rapidfuzz `fuzz.ratio` on strings. -/
def fuzzRatio (s1 s2 : String) : ℚ := ratioChars s1.data s2.data

/-- Maximum `ratioChars` of `a` against each window of `b` of length `a.length`
(sliding by one character). -/
def partGo (a : List Char) : List Char → ℚ
  | [] => if a.length = 0 then ratioChars a [] else 0
  | cb :: rest =>
      if (cb :: rest).length < a.length then 0
      else max (ratioChars a ((cb :: rest).take a.length)) (partGo a rest)

/-- rapidfuzz `fuzz.partial_ratio`: best alignment of the shorter string inside
the longer one; 100 when both are empty, 0 when exactly one is empty. -/
def fuzzPartialRatio (s1 s2 : String) : ℚ :=
  let a := if s1.length ≤ s2.length then s1.data else s2.data
  let b := if s1.length ≤ s2.length then s2.data else s1.data
  if a.isEmpty then (if b.isEmpty then 100 else 0)
  else partGo a b

/-- Fueled bit-count used to interpret `imagehash` Hamming distance. -/
def popcountAux : Nat → Nat → Nat
  | 0, _ => 0
  | fuel + 1, n => if n = 0 then 0 else n % 2 + popcountAux fuel (n / 2)

/-- Number of set bits of a natural number. -/
def popcount (n : Nat) : Nat := popcountAux n n

/-- Hamming distance between two perceptual hashes encoded as naturals
(`abs(phash - h)` on `imagehash.ImageHash` counts differing bits). -/
def hamming (a b : Nat) : Nat := popcount (Nat.xor a b)

theorem hamming_comm (a b : Nat) : hamming a b = hamming b a :=
  congrArg popcount (Nat.xor_comm a b)

/-- Python `str.title()` character walk: uppercase after a non-letter,
lowercase after a letter. -/
def pyTitleGo : Bool → List Char → List Char
  | _, [] => []
  | prevAlpha, c :: cs =>
      let c' := if c.isAlpha then (if prevAlpha then c.toLower else c.toUpper) else c
      c' :: pyTitleGo c.isAlpha cs

/-- Python `str.title()` (ASCII behaviour). -/
def pyTitle (s : String) : String := String.mk (pyTitleGo false s.data)

/-- Python `str.replace("_", " ")` for the single-character pattern used by the
fuser (character map, hence length preserving). -/
def pyReplaceUnderscore (s : String) : String :=
  String.mk (s.data.map (fun c => if c = '_' then ' ' else c))

theorem pyTitleGo_length (b : Bool) (l : List Char) :
    (pyTitleGo b l).length = l.length := by
  induction l generalizing b with
  | nil => rfl
  | cons c cs ih => simp [pyTitleGo, ih]

theorem pyTitle_ne_empty (s : String) (h : s ≠ "") : pyTitle s ≠ "" := by
  intro hc
  apply h
  have hdata : (pyTitleGo false s.data).length = 0 := by
    have : (pyTitle s).data = ([] : List Char) := by
      simpa [String.ext_iff] using hc
    simp [pyTitle] at this
    simp [this]
  rw [pyTitleGo_length] at hdata
  have : s.data = [] := List.length_eq_zero.mp hdata
  exact String.ext (by simpa using this)

theorem pyReplaceUnderscore_ne_empty (s : String) (h : s ≠ "") :
    pyReplaceUnderscore s ≠ "" := by
  intro hc
  apply h
  have hmap : (s.data.map (fun c => if c = '_' then ' ' else c)) = ([] : List Char) := by
    simpa [pyReplaceUnderscore, String.ext_iff] using hc
  exact String.ext (by simpa using List.map_eq_nil_iff.mp hmap)


/-- Python whitespace (`str.strip`, `\\s`): space, tab, newline, CR, VT, FF. -/
def isPyWs (c : Char) : Bool :=
  c = ' ' || c = '\t' || c = '\n' || c = '\r' || c.val = 11 || c.val = 12

/-- Python `str.strip()` on a char list. -/
def charsTrim (cs : List Char) : List Char :=
  ((cs.dropWhile isPyWs).reverse.dropWhile isPyWs).reverse

/-- Python `str.strip()` (char-list based so that it evaluates in the kernel). -/
def pyStrip (s : String) : String := String.mk (charsTrim s.data)

/-- Python `str.lower()` (char-list based). -/
def pyLower (s : String) : String := String.mk (s.data.map Char.toLower)

/-- Python `s.startswith(p)`. -/
def pyStartsWith (s p : String) : Bool := p.data.isPrefixOf s.data

/-- Split around the first occurrence of `pat`: `some (before, after)`;
`none` when `pat` does not occur. -/
def subAt (pat : List Char) : List Char → Option (List Char × List Char)
  | [] => if pat = [] then some ([], []) else none
  | c :: rest =>
      if pat ≠ [] ∧ pat.isPrefixOf (c :: rest) then
        some ([], (c :: rest).drop pat.length)
      else
        match subAt pat rest with
        | some (pre, post) => some (c :: pre, post)
        | none => none

/-- Python `s.split(sep, 1)`: `none` when `sep` does not occur (so that the
subsequent `[1]` raises `IndexError`). -/
def splitFirst (s sep : String) : Option (String × String) :=
  (subAt sep.data s.data).map (fun p => (String.mk p.1, String.mk p.2))

/-- Fueled scan for everything before the *last* occurrence of `pat`. -/
def rsplitAux (pat : List Char) : Nat → List Char → List Char
  | 0, cs => cs
  | fuel + 1, cs =>
      match subAt pat cs with
      | none => cs
      | some (pre, post) =>
          match subAt pat post with
          | none => pre
          | some _ => pre ++ pat ++ rsplitAux pat fuel post

/-- Python `s.rsplit(sep, 1)[0]`: everything before the last occurrence of
`sep` (the whole string if `sep` is absent). -/
def rsplitBefore (s sep : String) : String :=
  String.mk (rsplitAux sep.data s.data.length s.data)

/-- Fueled non-overlapping left-to-right replacement. -/
def replaceAux (pat rep : List Char) : Nat → List Char → List Char
  | 0, cs => cs
  | _ + 1, [] => []
  | fuel + 1, c :: rest =>
      if pat ≠ [] ∧ pat.isPrefixOf (c :: rest) then
        rep ++ replaceAux pat rep fuel ((c :: rest).drop pat.length)
      else c :: replaceAux pat rep fuel rest

/-- Python `s.replace(pat, rep)` (char-list based). -/
def pyReplace (s pat rep : String) : String :=
  String.mk (replaceAux pat.data rep.data s.data.length s.data)

/-! ## Data model (`app/schemas/capture.py`), restricted to the fields the
embedded services read or write. -/

/-- `DetectedObject` pydantic model (fields touched by the pipeline). -/
structure DetectedObject where
  name : String
  description : String
  category : String := "other"
  is_book : Bool := false
  needs_closer_look : Bool := false
  closer_look_reason : Option String := none
  confidence : ℚ
  bounding_box : Option (List ℚ) := none
  voice_context : Option String := none
deriving DecidableEq, Repr

/-- One YOLO-World spatial detection dict built by `_run_yolo`. -/
structure RawDet where
  class_name : String
  confidence : ℚ
  bbox : List ℚ
  category : String
deriving DecidableEq, Repr

/-- One Qwen semantic object dict after `_normalize_bboxes`: every field is
optional because the model controls which JSON keys are present (`dict.get`). -/
structure QwenObj where
  name : Option String := none
  description : Option String := none
  category : Option String := none
  is_book : Option Bool := none
  bbox : Option (List ℚ) := none
deriving DecidableEq, Repr

/-- `FrameAnalysisResult` pydantic model. -/
structure FrameAnalysisResult where
  frame_index : Nat
  frame_path : String
  objects : List DetectedObject := []
  frame_timestamp : ℚ := 0
  voice_context : Option String := none
deriving DecidableEq, Repr

/-- `RoomMention` pydantic model. -/
structure RoomMention where
  room_name : String
  timestamp : ℚ
  raw_text : String
  confidence : ℚ := 7/10
deriving DecidableEq, Repr

/-- `TranscribedSegment` pydantic model (`end` is a Lean keyword, renamed
`stop`; the `words` list is not read by the room-mention detector). -/
structure TranscribedSegment where
  text : String
  start : ℚ
  stop : ℚ
deriving DecidableEq, Repr

/-! ## `local_vision.py`: IoU and the detection fuser. -/

/-- `_compute_iou` on `[x1, y1, x2, y2]` boxes (indexing a Python list of
four floats; all call sites guarantee length 4). -/
def _compute_iou (box_a box_b : List ℚ) : ℚ :=
  let x1 := max (box_a.getD 0 0) (box_b.getD 0 0)
  let y1 := max (box_a.getD 1 0) (box_b.getD 1 0)
  let x2 := min (box_a.getD 2 0) (box_b.getD 2 0)
  let y2 := min (box_a.getD 3 0) (box_b.getD 3 0)
  let inter := max 0 (x2 - x1) * max 0 (y2 - y1)
  let area_a := (box_a.getD 2 0 - box_a.getD 0 0) * (box_a.getD 3 0 - box_a.getD 1 0)
  let area_b := (box_b.getD 2 0 - box_b.getD 0 0) * (box_b.getD 3 0 - box_b.getD 1 0)
  let union := area_a + area_b - inter
  if union > 0 then inter / union else 0

/-- Combined matching score inside `_merge_detections`:
`0.7 * IoU + 0.3 * partial-name-similarity` (IoU taken as 0 unless the Qwen
object carries a length-4 box — `if qwen_bbox and len(qwen_bbox) == 4`). -/
def combinedScore (class_name : String) (yolo_bbox : List ℚ) (q : QwenObj) : ℚ :=
  let iou :=
    match q.bbox with
    | some l => if l.length = 4 then _compute_iou yolo_bbox l else 0
    | none => 0
  let name_sim := fuzzPartialRatio (pyLower class_name) (pyLower (q.name.getD "")) / 100
  7/10 * iou + 3/10 * name_sim

/-- The best-match scan of `_merge_detections`: fold over the enumerated Qwen
objects keeping `(best_score, best_idx/best_match)`, starting from
`(0.0, None)`; an object is taken only when its combined score strictly
improves the current best and strictly exceeds 0.3. -/
def findBestStep (class_name : String) (yolo_bbox : List ℚ) (used : List Nat)
    (acc : ℚ × Option (Nat × QwenObj)) (p : Nat × QwenObj) :
    ℚ × Option (Nat × QwenObj) :=
  if p.1 ∈ used then acc
  else if combinedScore class_name yolo_bbox p.2 > acc.1 ∧
      combinedScore class_name yolo_bbox p.2 > 3/10 then
    (combinedScore class_name yolo_bbox p.2, some p)
  else acc

def findBest (class_name : String) (yolo_bbox : List ℚ) (qwens : List QwenObj)
    (used : List Nat) : ℚ × Option (Nat × QwenObj) :=
  qwens.enum.foldl (findBestStep class_name yolo_bbox used) ((0 : ℚ), none)

/-- Body of the per-spatial-detection loop of `_merge_detections`: build the
fused `DetectedObject` and record a consumed Qwen index. -/
def mergeOne (vc : Option String) (qwens : List QwenObj) (used : List Nat)
    (det : RawDet) : DetectedObject × List Nat :=
  let fb := findBest det.class_name det.bbox qwens used
  match fb.2 with
  | some (i, q) =>
      ({ name := q.name.getD (pyTitle det.class_name)
         description := q.description.getD ("Detected " ++ det.class_name)
         category := q.category.getD det.category
         is_book := q.is_book.getD (det.class_name == "book")
         needs_closer_look := false
         closer_look_reason := none
         confidence := pyRound2 (min 1 ((det.confidence + fb.1) / 2))
         bounding_box := some det.bbox
         voice_context := vc }, used ++ [i])
  | none =>
      ({ name := pyTitle (pyReplaceUnderscore det.class_name)
         description := "Detected " ++ det.class_name
         category := det.category
         is_book := det.class_name == "book"
         needs_closer_look := false
         closer_look_reason := none
         confidence := pyRound2 det.confidence
         bounding_box := some det.bbox
         voice_context := vc }, used)

/-- The `for det in yolo_dets` loop, threading the `used_qwen` set. -/
def mergeLoop (vc : Option String) (qwens : List QwenObj) :
    List RawDet → List Nat → List DetectedObject × List Nat
  | [], used => ([], used)
  | det :: rest, used =>
      let r := mergeOne vc qwens used det
      let rr := mergeLoop vc qwens rest r.2
      (r.1 :: rr.1, rr.2)

/-- A Qwen object left unconsumed, appended as its own `DetectedObject`
at fixed confidence 0.6 and with its own (optional) bounding box. -/
def qwenOnly (vc : Option String) (q : QwenObj) : DetectedObject :=
  { name := q.name.getD "Unknown"
    description := q.description.getD ""
    category := q.category.getD "other"
    is_book := q.is_book.getD false
    needs_closer_look := false
    closer_look_reason := none
    confidence := 3/5
    bounding_box := q.bbox
    voice_context := vc }

/-- `LocalVisionService._merge_detections`. -/
def _merge_detections (yolo_dets : List RawDet) (qwen_objs : List QwenObj)
    (vc : Option String) : List DetectedObject :=
  let r := mergeLoop vc qwen_objs yolo_dets []
  r.1 ++ qwen_objs.enum.filterMap
    (fun p => if p.1 ∈ r.2 then none else some (qwenOnly vc p.2))

/-! ## `video_processor.py`: cross-frame deduplication, frame extraction,
quality filtering. -/

/-- The pair-merge condition of `_deduplicate_objects`:
`name_sim > 80 or (name_sim > 60 and desc_sim > 70)` on lowercased name and
description (`description or ""` is the identity on the required `str` field). -/
def dedupMatch (a b : DetectedObject) : Bool :=
  let name_sim := fuzzRatio (pyLower a.name) (pyLower b.name)
  let desc_sim := fuzzRatio (pyLower a.description) (pyLower b.description)
  name_sim > 80 || (name_sim > 60 && desc_sim > 70)

/-- Greedy clustering scan of `_deduplicate_objects`: the first unclaimed
object leads a cluster, claims every later unclaimed object matching *it*,
and emits the highest-confidence member seen while claiming. Fueled so that
the recursion is structural (one element is consumed per step, so fuel equal
to the list length is exact). -/
def dedupAux : Nat → List DetectedObject → List DetectedObject
  | 0, _ => []
  | _, [] => []
  | fuel + 1, a :: rest =>
      let cluster := rest.filter (fun b => dedupMatch a b)
      let best := cluster.foldl
        (fun acc b => if acc.confidence < b.confidence then b else acc) a
      best :: dedupAux fuel (rest.filter (fun b => !(dedupMatch a b)))

/-- Flattening `[(obj, frame_path) for result in results for obj in result.objects]`
(the path component is never read by the clustering logic). -/
def flattenObjects (results : List FrameAnalysisResult) : List DetectedObject :=
  (results.map (fun r => r.objects)).flatten

/-- `VideoProcessor._deduplicate_objects`. -/
def _deduplicate_objects (results : List FrameAnalysisResult) : List DetectedObject :=
  let all_objects := flattenObjects results
  dedupAux all_objects.length all_objects

/-- The same greedy scan but emitting each cluster's *leader* (its first
member) instead of the promoted highest-confidence member. -/
def dedupLeadersAux : Nat → List DetectedObject → List DetectedObject
  | 0, _ => []
  | _, [] => []
  | fuel + 1, a :: rest =>
      a :: dedupLeadersAux fuel (rest.filter (fun b => !(dedupMatch a b)))

/-- Leader-only variant of the deduplicator (used to state when the greedy
scan is idempotent). -/
def dedupLeaders (l : List DetectedObject) : List DetectedObject :=
  dedupLeadersAux l.length l

/-- Wrap one deduplicated object as a single-frame analysis result, as when a
second deduplication pass is run on the first pass's output. -/
def asSingleFrame (o : DetectedObject) : FrameAnalysisResult :=
  { frame_index := 0, frame_path := "", objects := [o], frame_timestamp := 0,
    voice_context := none }

/-- The `while cap.read()` loop of `_extract_frames`: `fuel` counts the frames
remaining in the container, `idx` is the native frame counter; every
`interval`-th native frame is kept with timestamp `idx / fps`. -/
def extractLoop (fps : ℚ) (interval : Nat) : Nat → Nat → List (Nat × ℚ)
  | 0, _ => []
  | fuel + 1, idx =>
      if idx % interval = 0 then
        (idx, (idx : ℚ) / fps) :: extractLoop fps interval fuel (idx + 1)
      else extractLoop fps interval fuel (idx + 1)

/-- `VideoProcessor._extract_frames` on a container reporting raw fps `fps0`
(`cap.get(...) or 30.0`) and `nframes` decodable frames;
`video_fps_extract` is the configured target rate.
`frame_interval = max(1, int(fps / video_fps_extract))` — `int()` truncates. -/
def _extract_frames (fps0 : ℚ) (nframes : Nat) (video_fps_extract : ℚ) :
    List (Nat × ℚ) :=
  let fps := if fps0 = 0 then 30 else fps0
  let frame_interval := (max 1 (pyInt (fps / video_fps_extract))).toNat
  extractLoop fps frame_interval nframes 0

/-- Interval the spec prescribes for the Frame Source:
`max(1, round(native_fps / target_fps))` with Python `round` (half-to-even).
Stated from the spec's words, to be compared against `_extract_frames`. -/
def specInterval (fps target : ℚ) : Nat :=
  (max 1 (roundHalfEven (fps / target))).toNat

/-- An input frame for the quality filter: `readable` models whether
`cv2.imread` succeeds, `laplacian_var` the focus measure, `phash` the 64-bit
perceptual hash. -/
structure RawFrame where
  path : String
  ts : ℚ
  readable : Bool
  laplacian_var : ℚ
  phash : Nat
deriving DecidableEq, Repr

/-- The frame loop of `_filter_quality_frames`, threading the `seen_hashes`
list: unreadable and blurry frames are skipped, a frame whose hash is within
Hamming distance `< 10` of *any* previously accepted hash is skipped, and an
accepted frame appends its hash to `seen_hashes`. -/
def filterGo (blur_threshold : ℚ) (seen : List Nat) :
    List RawFrame → List RawFrame
  | [] => []
  | f :: rest =>
      if f.readable = false then filterGo blur_threshold seen rest
      else if f.laplacian_var < blur_threshold then filterGo blur_threshold seen rest
      else if seen.any (fun h => hamming f.phash h < 10) then
        filterGo blur_threshold seen rest
      else f :: filterGo blur_threshold (seen ++ [f.phash]) rest

/-- `VideoProcessor._filter_quality_frames` (returns the accepted
`(path, timestamp)` pairs). -/
def _filter_quality_frames (blur_threshold : ℚ) (frames : List RawFrame) :
    List (String × ℚ) :=
  (filterGo blur_threshold [] frames).map (fun f => (f.path, f.ts))

/-! ## `process_video` analysis loop and progress events (`video_processor.py`),
with the describer backend of `local_vision.py` as an explicit fallible call. -/

/-- One progress callback invocation (status and fractional progress; the
human-readable message and extra payload are elided). -/
structure ProgressEvent where
  status : String
  progress : ℚ
deriving DecidableEq, Repr

/-- A quality frame as seen by the analysis loop. -/
structure QualityFrame where
  path : String
  ts : ℚ
deriving DecidableEq, Repr

/-- Per-capture environment: what the spatial detector and the semantic
describer backend would return for each frame path.  `qwen .error` models the
backend call raising or timing out inside `_run_qwen_ollama`/`_run_qwen_openai`. -/
structure PipelineEnv where
  readable : String → Bool
  yolo : String → List RawDet
  qwen : String → Except Unit (List QwenObj)

/-- The `try/except` around the describer call in
`_run_qwen_ollama`/`_run_qwen_openai`: any exception is logged and absorbed
into an empty semantic object list. -/
def run_qwen_guarded (outcome : Except Unit (List QwenObj)) : List QwenObj :=
  match outcome with
  | Except.ok objs => objs
  | Except.error _ => []

/-- `LocalVisionService.analyze_frame`: unreadable image short-circuits to
`[]`; otherwise YOLO-World detections are merged with the (failure-absorbed)
Qwen objects. -/
def lvs_analyze_frame (env : PipelineEnv) (path : String) (vc : Option String) :
    List DetectedObject :=
  if env.readable path = false then []
  else _merge_detections (env.yolo path) (run_qwen_guarded (env.qwen path)) vc

/-- The `for i, (frame_path, frame_ts) in enumerate(quality_frames)` analysis
loop of `process_video`: one `FrameAnalysisResult` and one "analyzing"
progress event per frame (`pct = 0.3 + 0.5 * (i + 1) / quality_count`). -/
def analyzeLoop (env : PipelineEnv) (vcs : Nat → Option String) (qcount : Nat) :
    Nat → List QualityFrame → List FrameAnalysisResult × List ProgressEvent
  | _, [] => ([], [])
  | i, f :: rest =>
      let objects := lvs_analyze_frame env f.path (vcs i)
      let res : FrameAnalysisResult :=
        { frame_index := i, frame_path := f.path, objects := objects,
          frame_timestamp := f.ts, voice_context := vcs i }
      let ev : ProgressEvent :=
        { status := "analyzing", progress := 3/10 + (1/2 * (i + 1)) / qcount }
      let r := analyzeLoop env vcs qcount (i + 1) rest
      (res :: r.1, ev :: r.2)

/-- `VideoProcessor.process_video` from the analysis stage on (frame
extraction/filtering/transcription already folded into `frames`/`vcs`; the
concurrent transcription task's own progress events are elided as they precede
the stages modelled here).  Returns the deduplicated objects, the per-frame
results and the emitted progress events. -/
def process_video (env : PipelineEnv) (frames : List QualityFrame)
    (vcs : Nat → Option String) :
    List DetectedObject × List FrameAnalysisResult × List ProgressEvent :=
  let pre : List ProgressEvent :=
    [{ status := "extracting_frames", progress := 0 },
     { status := "filtering", progress := 3/20 },
     { status := "analyzing", progress := 3/10 }]
  let r := analyzeLoop env vcs frames.length 0 frames
  let deduplicated := _deduplicate_objects r.1
  let events := pre ++ r.2 ++
    [{ status := "deduplicating", progress := 17/20 },
     { status := "done", progress := 1 }]
  (deduplicated, r.1, events)

/-! ## Defensive response parsers (`vision.py` / `local_vision.py`).
JSON values are modelled by `PyJson`; `json.loads` is a parameter
(`none` = `json.JSONDecodeError`); Python exceptions become `PyExc`. -/

/-- A parsed Python/JSON value. -/
inductive PyJson where
  | null : PyJson
  | bool (b : Bool) : PyJson
  | num (q : ℚ) : PyJson
  | str (s : String) : PyJson
  | arr (elems : List PyJson) : PyJson
  | obj (fields : List (String × PyJson)) : PyJson

/-- The Python exceptions the parsers can raise or catch.
`jsonDecodeError` is a subclass of `valueError` in Python; they are kept
separate here because `_parse_qwen_response` catches only the former. -/
inductive PyExc where
  | jsonDecodeError : PyExc
  | valueError : PyExc
  | indexError : PyExc
  | typeError : PyExc
deriving DecidableEq, Repr

/-- The Markdown code fence `` ``` ``. -/
def fenceStr : String := "```"

/-- The code-fence stripping step shared by both parsers:
`text.split("\n", 1)[1].rsplit("```", 1)[0]`.  On a fenced text without a
newline, Python's `[1]` raises `IndexError`. -/
def stripFence (t : String) : Except PyExc String :=
  if pyStartsWith t fenceStr then
    match splitFirst t "\n" with
    | none => Except.error PyExc.indexError
    | some (_, rest) => Except.ok (rsplitBefore rest fenceStr)
  else Except.ok t

/-- Lookup of a key in a parsed JSON object. -/
def pyGet (fields : List (String × PyJson)) (key : String) : Option PyJson :=
  (fields.find? (fun p => p.1 == key)).map (fun p => p.2)

/-- Pydantic validation `DetectedObject(**obj)` (modelled): requires a JSON
object (`**` of a non-mapping raises `TypeError`), requires `name`,
`description` (strings) and `confidence` (a number in `[0,1]`), takes
defaults for the remaining fields, and raises `ValueError` (pydantic's
`ValidationError`) otherwise. -/
def detectedObjectOfJson (j : PyJson) : Except PyExc DetectedObject :=
  match j with
  | PyJson.obj fields =>
      match pyGet fields "name", pyGet fields "description", pyGet fields "confidence" with
      | some (PyJson.str n), some (PyJson.str d), some (PyJson.num c) =>
          if 0 ≤ c ∧ c ≤ 1 then
            Except.ok { name := n, description := d, confidence := c }
          else Except.error PyExc.valueError
      | _, _, _ => Except.error PyExc.valueError
  | _ => Except.error PyExc.typeError

/-- `VisionService._parse_batch_response`: strip, de-fence, `json.loads`,
validate each element; `json.JSONDecodeError` and `ValueError` are caught and
yield `[]`, every other exception propagates to the caller. -/
def _parse_batch_response (loads : String → Option PyJson) (text : String) :
    Except PyExc (List DetectedObject) :=
  let body : Except PyExc (List DetectedObject) := do
    let t := pyStrip text
    let t ← stripFence t
    match loads t with
    | none => Except.error PyExc.jsonDecodeError
    | some (PyJson.arr elems) => elems.mapM detectedObjectOfJson
    | some j => (detectedObjectOfJson j).map (fun o => [o])
  match body with
  | Except.error PyExc.jsonDecodeError => Except.ok []
  | Except.error PyExc.valueError => Except.ok []
  | r => r

/-- One parse attempt of `_parse_qwen_response`: a JSON list is returned, a
JSON dict is wrapped in a singleton list, anything else (including a decode
failure) falls through to the next attempt. -/
def qwenAttemptFull (loads : String → Option PyJson) (s : String) :
    Option (List PyJson) :=
  match loads s with
  | some (PyJson.arr l) => some l
  | some (PyJson.obj f) => some [PyJson.obj f]
  | _ => none

/-- The `text[start:end + 1]` slice between the first `[` and the last `]`
(`none` when either bracket is missing or they are not in order). -/
def sliceBrackets (s : String) : Option String :=
  let cs := s.data
  match cs.findIdx? (fun c => c = '['), cs.reverse.findIdx? (fun c => c = ']') with
  | some st, some rj =>
      let en := cs.length - 1 - rj
      if st < en then some (String.mk ((cs.drop st).take (en - st + 1))) else none
  | _, _ => none

/-- A bracket-extraction attempt of `_parse_qwen_response`: only a JSON list
is accepted. -/
def qwenAttemptSlice (loads : String → Option PyJson) (s : String) :
    Option (List PyJson) :=
  match sliceBrackets s with
  | some sub =>
      match loads sub with
      | some (PyJson.arr l) => some l
      | _ => none
  | none => none

/-- `LocalVisionService._parse_qwen_response`: strip, de-fence (re-stripping),
normalize Python literals, then try full parses of the fixed and raw text and
bracket-slice parses of both, finally falling back to `[]`.  The de-fencing
`IndexError` is not caught inside this function. -/
def _parse_qwen_response (loads : String → Option PyJson) (text0 : String) :
    Except PyExc (List PyJson) := do
  let t := pyStrip text0
  let text ← (stripFence t).map pyStrip
  let fixed := pyReplace (pyReplace (pyReplace text ": True" ": true")
    ": False" ": false") ": None" ": null"
  let r := (qwenAttemptFull loads fixed).orElse (fun _ => qwenAttemptFull loads text)
  let r := r.orElse (fun _ => qwenAttemptSlice loads fixed)
  let r := r.orElse (fun _ => qwenAttemptSlice loads text)
  Except.ok (r.getD [])

/-! ## `transcription.py`: room-mention detection.
The two fixed regexes (`_TRIGGER_PHRASES`, `_KNOWN_ROOMS_PATTERN`) are
implemented as left-to-right, non-overlapping scans with the backtracking
order of the Python `re` patterns. -/

/-- Regex `\w` (ASCII): letters, digits, underscore. -/
def isWordChar (c : Char) : Bool := c.isAlphanum || c = '_'

/-- An apostrophe (kept out of string literals). -/
def apos : String := String.singleton (Char.ofNat 39)

/-- The trigger-phrase alternatives of `_TRIGGER_PHRASES`, flattened in the
regex backtracking order: each alternation branch is tried in written order
and the greedy `(?: the)?` prefers the longer variant. -/
def triggerVariants : List String :=
  ["this is the", "this is",
   "entering the", "entering",
   "now in the", "now in",
   "here" ++ apos ++ "s the", "here" ++ apos ++ "s", "heres the", "heres",
   "moving to the", "moving to", "moving into the", "moving into",
   "we" ++ apos ++ "re in the", "we" ++ apos ++ "re in", "were in the", "were in"]

/-- Lazy capture `(.+?)(?:\.|,|$)`: consume at least one non-newline
character, stopping at the first `.`/`,` (consumed) or at the end of input.
Returns the captured group and the remaining input. -/
def lazyCapture (acc : List Char) : List Char → Option (List Char × List Char)
  | [] => if acc.isEmpty then none else some (acc.reverse, [])
  | c :: rest =>
      if acc.isEmpty then
        if c = '\n' then none else lazyCapture [c] rest
      else if c = '.' ∨ c = ',' then some (acc.reverse, rest)
      else if c = '\n' then none
      else lazyCapture (c :: acc) rest

/-- Length of the maximal leading whitespace run. -/
def leadingWs : List Char → Nat
  | [] => 0
  | c :: rest => if isPyWs c then leadingWs rest + 1 else 0

/-- `\s+(.+?)(?:\.|,|$)`: the greedy `\s+` tries the widest whitespace run
first and backtracks one character at a time. -/
def tryWs (suffix : List Char) : Nat → Option (List Char × List Char)
  | 0 => none
  | k + 1 =>
      match lazyCapture [] (suffix.drop (k + 1)) with
      | some r => some r
      | none => tryWs suffix k

/-- Try each trigger variant at this position (regex alternation order),
falling through to the next variant when the tail of the pattern fails. -/
def tryVariantsAt (suffix : List Char) : List String → Option (List Char × List Char)
  | [] => none
  | v :: vs =>
      if v.data.isPrefixOf suffix then
        match tryWs (suffix.drop v.length) (leadingWs (suffix.drop v.length)) with
        | some r => some r
        | none => tryVariantsAt suffix vs
      else tryVariantsAt suffix vs

/-- `_TRIGGER_PHRASES.finditer`: scan left to right over the lowercased text,
matching only at word boundaries (every variant starts with a word character)
and resuming after each match. -/
def triggerScanAux : Nat → Bool → List Char → List (List Char)
  | 0, _, _ => []
  | _ + 1, _, [] => []
  | fuel + 1, prevW, c :: rest =>
      if prevW then triggerScanAux fuel (isWordChar c) rest
      else
        match tryVariantsAt (c :: rest) triggerVariants with
        | some (g, rem) => g :: triggerScanAux fuel false rem
        | none => triggerScanAux fuel (isWordChar c) rest

/-- Captured groups of `_TRIGGER_PHRASES.finditer(text)` (case-insensitive
matching realized by lowering the text first). -/
def triggerFinditer (text : String) : List String :=
  (triggerScanAux text.data.length false ((pyLower text).data)).map String.mk

/-- `_KNOWN_ROOMS`, in the alternation order of `_KNOWN_ROOMS_PATTERN`. -/
def knownRooms : List String :=
  ["kitchen", "living room", "bedroom", "bathroom", "garage", "basement",
   "attic", "dining room", "office", "study", "laundry room", "pantry",
   "closet", "hallway", "entryway", "nursery", "guest room", "master bedroom",
   "den", "porch", "patio", "sunroom"]

/-- First room alternative matching at this position, with the trailing `\b`
(the next character, if any, must not be a word character). -/
def roomAt (suffix : List Char) : List String → Option String
  | [] => none
  | r :: rs =>
      let ok := !r.data.isEmpty && r.data.isPrefixOf suffix &&
        (match suffix.drop r.length with
         | [] => true
         | d :: _ => !(isWordChar d))
      if ok then some r else roomAt suffix rs

/-- `_KNOWN_ROOMS_PATTERN.finditer`: non-overlapping scan at word boundaries. -/
def knownScanAux : Nat → Bool → List Char → List String
  | 0, _, _ => []
  | _ + 1, _, [] => []
  | fuel + 1, prevW, c :: rest =>
      if prevW then knownScanAux fuel (isWordChar c) rest
      else
        match roomAt (c :: rest) knownRooms with
        | some r => r :: knownScanAux fuel true ((c :: rest).drop r.length)
        | none => knownScanAux fuel (isWordChar c) rest

/-- Matched room names of `_KNOWN_ROOMS_PATTERN.finditer(text)` (already
lowercase). -/
def knownFinditer (text : String) : List String :=
  knownScanAux text.data.length false ((pyLower text).data)

/-- `TranscriptionResult` pydantic model (fields read by the detector). -/
structure TranscriptionResult where
  segments : List TranscribedSegment := []
  full_text : String := ""
  language : String := ""
  duration : ℚ := 0
deriving DecidableEq, Repr

/-- Append one room mention unless its `(room name, rounded timestamp)` key
was already seen (`seen` dedup set of `detect_room_mentions`). -/
def addMention (conf : ℚ) (seg : TranscribedSegment)
    (state : List (String × ℚ) × List RoomMention) (room_name : String) :
    List (String × ℚ) × List RoomMention :=
  let key := (room_name, pyRound1 seg.start)
  if key ∈ state.1 then state
  else (state.1 ++ [key],
        state.2 ++ [{ room_name := room_name, timestamp := seg.start,
                      raw_text := pyStrip seg.text, confidence := conf }])

/-- Per-segment body of `detect_room_mentions`: first the 0.9-confidence
trigger matches (room phrases longer than 40 characters rejected), then the
0.7-confidence known-room matches. -/
def processSeg (state : List (String × ℚ) × List RoomMention)
    (seg : TranscribedSegment) : List (String × ℚ) × List RoomMention :=
  let trigNames := (triggerFinditer seg.text).map pyStrip
  let s1 := trigNames.foldl
    (fun st rn => if rn.length > 40 then st else addMention (9/10) seg st rn) state
  (knownFinditer seg.text).foldl (fun st rn => addMention (7/10) seg st rn) s1

/-- `TranscriptionService.detect_room_mentions`. -/
def detect_room_mentions (transcript : TranscriptionResult) : List RoomMention :=
  (transcript.segments.foldl processSeg ([], [])).2

/-! ## Claim theorems. -/

/-- C1: the defensive parsers are *not* total: on the three-character response
`"```"` (a Markdown fence with no newline), `text.split("\n", 1)[1]` raises
`IndexError` in both `_parse_batch_response` and `_parse_qwen_response`,
whatever `json.loads` would do; an ordinary unparseable text does fall back to
the empty list. -/
theorem parse_fence_raises (loads : String → Option PyJson) :
    _parse_batch_response loads "```" = Except.error PyExc.indexError ∧
    _parse_qwen_response loads "```" = Except.error PyExc.indexError ∧
    _parse_batch_response (fun _ => none) "no json here" = Except.ok [] :=
  ⟨rfl, rfl, rfl⟩

/-- C6 (amended): `_compute_iou b b = 1` for every box of positive width and
height (a degenerate box yields 0 because the union is 0), and the IoU of two
disjoint boxes (empty intersection on the x- or y-axis) is always 0. -/
theorem iou_self_pos_and_disjoint :
    (∀ b : List ℚ, b.getD 0 0 < b.getD 2 0 → b.getD 1 0 < b.getD 3 0 →
      _compute_iou b b = 1) ∧
    (∀ a b : List ℚ,
      min (a.getD 2 0) (b.getD 2 0) ≤ max (a.getD 0 0) (b.getD 0 0) ∨
      min (a.getD 3 0) (b.getD 3 0) ≤ max (a.getD 1 0) (b.getD 1 0) →
      _compute_iou a b = 0) := by
  constructor
  · intro b hx hy
    simp only [_compute_iou, max_self, min_self]
    rw [max_eq_right (by linarith : (0:ℚ) ≤ b.getD 2 0 - b.getD 0 0),
        max_eq_right (by linarith : (0:ℚ) ≤ b.getD 3 0 - b.getD 1 0)]
    have harea : 0 < (b.getD 2 0 - b.getD 0 0) * (b.getD 3 0 - b.getD 1 0) :=
      mul_pos (by linarith) (by linarith)
    rw [if_pos (by linarith)]
    have hne : (b.getD 2 0 - b.getD 0 0) * (b.getD 3 0 - b.getD 1 0) +
        (b.getD 2 0 - b.getD 0 0) * (b.getD 3 0 - b.getD 1 0) -
        (b.getD 2 0 - b.getD 0 0) * (b.getD 3 0 - b.getD 1 0) =
        (b.getD 2 0 - b.getD 0 0) * (b.getD 3 0 - b.getD 1 0) := by ring
    rw [hne]
    exact div_self harea.ne'
  · intro a b hdisj
    simp only [_compute_iou]
    have hinter : max 0 (min (a.getD 2 0) (b.getD 2 0) - max (a.getD 0 0) (b.getD 0 0)) *
        max 0 (min (a.getD 3 0) (b.getD 3 0) - max (a.getD 1 0) (b.getD 1 0)) = 0 := by
      rcases hdisj with h | h
      · rw [max_eq_left (by linarith : min (a.getD 2 0) (b.getD 2 0) -
          max (a.getD 0 0) (b.getD 0 0) ≤ 0), zero_mul]
      · rw [max_eq_left (by linarith : min (a.getD 3 0) (b.getD 3 0) -
          max (a.getD 1 0) (b.getD 1 0) ≤ 0), mul_zero]
    rw [hinter]
    split_ifs with h
    · exact zero_div _
    · rfl

/-- C6 witness: the amended statement at a concrete positive-area box and a
concrete disjoint pair. -/
theorem iou_self_pos_and_disjoint_witness :
    _compute_iou [0, 0, 1, 1] [0, 0, 1, 1] = 1 ∧
    _compute_iou [0, 0, 1/4, 1/4] [1/2, 1/2, 1, 1] = 0 :=
  ⟨iou_self_pos_and_disjoint.1 [0, 0, 1, 1] (by norm_num) (by norm_num),
   iou_self_pos_and_disjoint.2 [0, 0, 1/4, 1/4] [1/2, 1/2, 1, 1]
     (Or.inl (by norm_num))⟩

/-- C6 counterexample: the claim "IoU(b, b) = 1.0 for every bounding box b"
fails at the degenerate box `[0, 0, 0, 0]`, where `_compute_iou` returns 0. -/
theorem iou_self_degenerate : _compute_iou [0, 0, 0, 0] [0, 0, 0, 0] = 0 ∧
    (0 : ℚ) ≠ 1 := by
  constructor
  · decide
  · norm_num

theorem extractLoop_mem (fps : ℚ) (itv : Nat) :
    ∀ (fuel start i : Nat) (t : ℚ),
      ((i, t) ∈ extractLoop fps itv fuel start ↔
        start ≤ i ∧ i < start + fuel ∧ i % itv = 0 ∧ t = (i : ℚ) / fps) := by
  intro fuel
  induction fuel with
  | zero =>
      intro start i t
      simp only [extractLoop, List.not_mem_nil, false_iff]
      rintro ⟨h1, h2, -, -⟩
      omega
  | succ fuel ih =>
      intro start i t
      simp only [extractLoop]
      by_cases hmod : start % itv = 0
      · rw [if_pos hmod]
        simp only [List.mem_cons, ih (start + 1) i t, Prod.mk.injEq]
        constructor
        · rintro (⟨rfl, rfl⟩ | ⟨h1, h2, h3, h4⟩)
          · exact ⟨le_refl _, by omega, hmod, rfl⟩
          · exact ⟨by omega, by omega, h3, h4⟩
        · rintro ⟨h1, h2, h3, h4⟩
          rcases Nat.eq_or_lt_of_le h1 with rfl | hlt
          · exact Or.inl ⟨rfl, h4⟩
          · exact Or.inr ⟨hlt, by omega, h3, h4⟩
      · rw [if_neg hmod]
        rw [ih (start + 1) i t]
        constructor
        · rintro ⟨h1, h2, h3, h4⟩
          exact ⟨by omega, by omega, h3, h4⟩
        · rintro ⟨h1, h2, h3, h4⟩
          rcases Nat.eq_or_lt_of_le h1 with rfl | hlt
          · exact absurd h3 hmod
          · exact ⟨hlt, by omega, h3, h4⟩

/-- C4 (amended): `_extract_frames` keeps exactly the native frames whose
index is a multiple of `max(1, int(native_fps / target_fps))` — Python `int()`
truncation, not rounding — recording `timestamp = frame_index / native_fps`
(with the fps defaulting to 30 when the container reports 0). -/
theorem extract_frames_spec (fps0 : ℚ) (n : Nat) (target : ℚ) (i : Nat) (t : ℚ) :
    ((i, t) ∈ _extract_frames fps0 n target ↔
      i < n ∧
      i % (max 1 (pyInt ((if fps0 = 0 then 30 else fps0) / target))).toNat = 0 ∧
      t = (i : ℚ) / (if fps0 = 0 then 30 else fps0)) := by
  unfold _extract_frames
  rw [extractLoop_mem]
  constructor
  · rintro ⟨-, h2, h3, h4⟩
    exact ⟨by omega, h3, h4⟩
  · rintro ⟨h1, h2, h3⟩
    exact ⟨Nat.zero_le _, by omega, h2, h3⟩

/-- C4 counterexample: at native fps 25 and target rate 1.5 the spec's
`max(1, round(native_fps/target_fps))` is 17, but the code truncates
(`int(25/1.5) = 16`): over an 18-frame video the code keeps native frames
`[0, 16]` while the claimed rule would keep `[0, 17]`. -/
theorem extract_frames_not_round :
    specInterval 25 (3/2) = 17 ∧
    (_extract_frames 25 18 (3/2)).map Prod.fst = [0, 16] ∧
    (List.range 18).filter (fun i => i % specInterval 25 (3/2) == 0) = [0, 17] ∧
    ([0, 16] : List Nat) ≠ [0, 17] := by
  refine ⟨by decide, by decide, by decide, by decide⟩

theorem dedupLeadersAux_subset :
    ∀ (fuel : Nat) (l : List DetectedObject) (x : DetectedObject),
      x ∈ dedupLeadersAux fuel l → x ∈ l := by
  intro fuel
  induction fuel with
  | zero => intro l x hx; simp [dedupLeadersAux] at hx
  | succ fuel ih =>
      intro l x hx
      cases l with
      | nil => simp [dedupLeadersAux] at hx
      | cons a rest =>
          simp only [dedupLeadersAux, List.mem_cons] at hx
          rcases hx with rfl | hx
          · exact List.mem_cons_self _ _
          · exact List.mem_cons_of_mem _ (List.mem_of_mem_filter (ih _ _ hx))

theorem dedupLeadersAux_pairwise :
    ∀ (fuel : Nat) (l : List DetectedObject),
      (dedupLeadersAux fuel l).Pairwise (fun a b => dedupMatch a b = false) := by
  intro fuel
  induction fuel with
  | zero => intro l; simp [dedupLeadersAux]
  | succ fuel ih =>
      intro l
      cases l with
      | nil => simp [dedupLeadersAux]
      | cons a rest =>
          simp only [dedupLeadersAux]
          refine List.Pairwise.cons ?_ (ih _)
          intro b hb
          have hbf := dedupLeadersAux_subset fuel _ b hb
          have := List.of_mem_filter hbf
          simpa using this

theorem dedupAux_of_pairwise :
    ∀ (fuel : Nat) (l : List DetectedObject), l.length ≤ fuel →
      l.Pairwise (fun a b => dedupMatch a b = false) → dedupAux fuel l = l := by
  intro fuel
  induction fuel with
  | zero =>
      intro l hlen _
      cases l with
      | nil => rfl
      | cons a rest => simp at hlen
  | succ fuel ih =>
      intro l hlen hp
      cases l with
      | nil => rfl
      | cons a rest =>
          rcases List.pairwise_cons.mp hp with ⟨hhead, htail⟩
          have hcluster : rest.filter (fun b => dedupMatch a b) = [] :=
            List.filter_eq_nil_iff.mpr (fun b hb => by simp [hhead b hb])
          have hkeep : rest.filter (fun b => !(dedupMatch a b)) = rest :=
            List.filter_eq_self.mpr (fun b hb => by simp [hhead b hb])
          simp only [dedupAux, hcluster, hkeep, List.foldl_nil]
          exact congrArg (a :: ·) (ih rest (by simpa using hlen) htail)

theorem flattenObjects_map_asSingleFrame (l : List DetectedObject) :
    flattenObjects (l.map asSingleFrame) = l := by
  induction l with
  | nil => rfl
  | cons a rest ih =>
      simp only [flattenObjects, asSingleFrame, List.map_cons, List.map_map,
        List.flatten] at ih ⊢
      simpa using ih

/-- C2 (amended): the cross-frame deduplicator is *not* idempotent in general
(see the counterexample), but it is whenever the first pass promoted no
representative — i.e. whenever its output coincides with the cluster leaders.
Any two leaders were compared and found non-matching, so a second pass over
the output (each object wrapped as a single-frame result) merges nothing. -/
theorem dedup_idempotent_on_leader_outputs (results : List FrameAnalysisResult)
    (h : _deduplicate_objects results = dedupLeaders (flattenObjects results)) :
    _deduplicate_objects ((_deduplicate_objects results).map asSingleFrame) =
      _deduplicate_objects results := by
  have hflat : flattenObjects ((_deduplicate_objects results).map asSingleFrame) =
      _deduplicate_objects results :=
    flattenObjects_map_asSingleFrame _
  show dedupAux (flattenObjects ((_deduplicate_objects results).map asSingleFrame)).length
      (flattenObjects ((_deduplicate_objects results).map asSingleFrame)) =
      _deduplicate_objects results
  rw [hflat]
  have hpair : (_deduplicate_objects results).Pairwise
      (fun a b => dedupMatch a b = false) := by
    rw [h]
    exact dedupLeadersAux_pairwise _ _
  exact dedupAux_of_pairwise _ _ le_rfl hpair

/-- Objects of the C2 concrete inputs. -/
def cexA : DetectedObject := { name := "aaaa", description := "pppp", confidence := 1/2 }

/-- Higher-confidence near-duplicate of `cexA` (promoted representative). -/
def cexB : DetectedObject := { name := "aaaaa", description := "pppp", confidence := 9/10 }

/-- Matches `cexB` (name similarity ≈ 90.9) but not `cexA` (similarity 80,
not > 80, and unrelated description). -/
def cexC : DetectedObject := { name := "aaaaaa", description := "qqqq", confidence := 1/2 }

/-- Single-frame input for the C2 counterexample. -/
def cexFrameABC : FrameAnalysisResult :=
  { frame_index := 0, frame_path := "f", objects := [cexA, cexB, cexC] }

/-- Single-frame input for the C2 witness (higher confidence first, so the
first pass promotes nothing). -/
def cexFrameBA : FrameAnalysisResult :=
  { frame_index := 0, frame_path := "f", objects := [cexB, cexA] }

/-- C2 witness: a run whose output representatives are the cluster leaders
(no promotion: the higher-confidence object comes first), where the amended
theorem applies and a second pass changes nothing. -/
theorem dedup_idempotent_witness :
    _deduplicate_objects [cexFrameBA] = dedupLeaders (flattenObjects [cexFrameBA]) ∧
    _deduplicate_objects ((_deduplicate_objects [cexFrameBA]).map asSingleFrame) =
      _deduplicate_objects [cexFrameBA] :=
  ⟨by decide, dedup_idempotent_on_leader_outputs _ (by decide)⟩

/-- C2 counterexample: on the single frame `[cexA, cexB, cexC]` the first pass
claims `cexB` into `cexA`'s cluster and promotes it to representative
(`0.9 > 0.5`), while `cexC` matches neither `cexA` (similarity exactly 80) nor
the already-claimed `cexB`; the output is `[cexB, cexC]`.  A second pass over
that output merges `cexC` into `cexB` (similarity ≈ 90.9 > 80), so running
the deduplicator twice on its own output changes it. -/
theorem dedup_not_idempotent :
    _deduplicate_objects [cexFrameABC] = [cexB, cexC] ∧
    _deduplicate_objects ((_deduplicate_objects [cexFrameABC]).map asSingleFrame) =
      [cexB] ∧
    ([cexB] : List DetectedObject) ≠ [cexB, cexC] := by
  refine ⟨by decide, by decide, by decide⟩

theorem findBest_fold_mono (class_name : String) (yolo_bbox : List ℚ)
    (used : List Nat) :
    ∀ (l : List (Nat × QwenObj)) acc,
      acc.1 ≤ (l.foldl (findBestStep class_name yolo_bbox used) acc).1 := by
  intro l
  induction l with
  | nil => intro acc; exact le_refl _
  | cons p rest ih =>
      intro acc
      rw [List.foldl_cons]
      refine le_trans ?_ (ih _)
      unfold findBestStep
      split_ifs with hu hc
      · exact le_refl _
      · exact le_of_lt hc.1
      · exact le_refl _

theorem findBest_fold_ge (class_name : String) (yolo_bbox : List ℚ)
    (used : List Nat) :
    ∀ (l : List (Nat × QwenObj)) acc (p : Nat × QwenObj), p ∈ l → p.1 ∉ used →
      combinedScore class_name yolo_bbox p.2 > 3/10 →
      combinedScore class_name yolo_bbox p.2 ≤
        (l.foldl (findBestStep class_name yolo_bbox used) acc).1 := by
  intro l
  induction l with
  | nil => intro acc p hp; simp at hp
  | cons q rest ih =>
      intro acc p hp hnu hgt
      rcases List.mem_cons.mp hp with rfl | hp'
      · rw [List.foldl_cons]
        refine le_trans ?_ (findBest_fold_mono class_name yolo_bbox used rest _)
        unfold findBestStep
        rw [if_neg hnu]
        by_cases hc : combinedScore class_name yolo_bbox p.2 > acc.1 ∧
            combinedScore class_name yolo_bbox p.2 > 3/10
        · simp [if_pos hc]
        · have hle : combinedScore class_name yolo_bbox p.2 ≤ acc.1 := by
            by_contra hlt
            exact hc ⟨lt_of_not_le hlt, hgt⟩
          simpa [if_neg hc] using hle
      · rw [List.foldl_cons]
        exact ih _ p hp' hnu hgt

theorem findBest_fold_some (class_name : String) (yolo_bbox : List ℚ)
    (used : List Nat) :
    ∀ (l l0 : List (Nat × QwenObj)) (acc : ℚ × Option (Nat × QwenObj))
      (x : Nat × QwenObj),
      (∀ p ∈ l, p ∈ l0) →
      (∀ y, acc.2 = some y → acc.1 > 3/10 ∧ y ∈ l0) →
      (l.foldl (findBestStep class_name yolo_bbox used) acc).2 = some x →
      (l.foldl (findBestStep class_name yolo_bbox used) acc).1 > 3/10 ∧ x ∈ l0 := by
  intro l
  induction l with
  | nil =>
      intro l0 acc x _ hacc hfold
      exact hacc x hfold
  | cons q rest ih =>
      intro l0 acc x hsub hacc hfold
      rw [List.foldl_cons] at hfold ⊢
      refine ih l0 _ x (fun p hp => hsub p (List.mem_cons_of_mem _ hp)) ?_ hfold
      intro y hy
      unfold findBestStep at hy ⊢
      split_ifs at hy ⊢ with hu hc
      · exact hacc y hy
      · cases hy
        exact ⟨hc.2, hsub _ (List.mem_cons_self _ _)⟩
      · exact hacc y hy

theorem enumFrom_snd_mem {α : Type} :
    ∀ (l : List α) (n : Nat) (p : Nat × α), p ∈ l.enumFrom n → p.2 ∈ l := by
  intro l
  induction l with
  | nil => intro n p hp; simp [List.enumFrom] at hp
  | cons a rest ih =>
      intro n p hp
      simp only [List.enumFrom, List.mem_cons] at hp
      rcases hp with rfl | hp
      · exact List.mem_cons_self _ _
      · exact List.mem_cons_of_mem _ (ih (n + 1) p hp)

theorem findBest_some (class_name : String) (yolo_bbox : List ℚ)
    (qwens : List QwenObj) (used : List Nat) (s : ℚ) (i : Nat) (q : QwenObj)
    (h : findBest class_name yolo_bbox qwens used = (s, some (i, q))) :
    s > 3/10 ∧ (i, q) ∈ qwens.enum ∧ q ∈ qwens := by
  have hfold := findBest_fold_some class_name yolo_bbox used qwens.enum
    qwens.enum ((0 : ℚ), none) (i, q) (fun p hp => hp) (by intro y hy; cases hy) ?_
  · have hs : (qwens.enum.foldl (findBestStep class_name yolo_bbox used)
        ((0 : ℚ), none)).1 = s := by
      rw [show qwens.enum.foldl (findBestStep class_name yolo_bbox used)
        ((0 : ℚ), none) = (s, some (i, q)) from h]
    rw [hs] at hfold
    exact ⟨hfold.1, hfold.2, enumFrom_snd_mem qwens 0 (i, q) hfold.2⟩
  · rw [show qwens.enum.foldl (findBestStep class_name yolo_bbox used)
      ((0 : ℚ), none) = (s, some (i, q)) from h]

/-- C3 (amended): when the best-match scan over the unused semantic objects
returns a match, its score exceeds 0.3, it is maximal among all semantic
objects whose combined score `0.7*IoU + 0.3*name-similarity` exceeds 0.3, and
the fused object for the first spatial detection takes the semantic
name/description/category/is_book while its confidence is the average of the
spatial confidence and the match score *clamped to 1 and rounded to two
decimals* (`round(min(1.0, (confidence + best_score) / 2), 2)`), not the
exact average. -/
theorem merge_matched_takes_semantic (det : RawDet) (dets : List RawDet)
    (qwens : List QwenObj) (vc : Option String) (s : ℚ) (i : Nat) (q : QwenObj)
    (hfb : findBest det.class_name det.bbox qwens [] = (s, some (i, q))) :
    s > 3/10 ∧ q ∈ qwens ∧
    (∀ p ∈ qwens.enum, combinedScore det.class_name det.bbox p.2 > 3/10 →
      combinedScore det.class_name det.bbox p.2 ≤ s) ∧
    (_merge_detections (det :: dets) qwens vc).head? = some
      { name := q.name.getD (pyTitle det.class_name)
        description := q.description.getD ("Detected " ++ det.class_name)
        category := q.category.getD det.category
        is_book := q.is_book.getD (det.class_name == "book")
        needs_closer_look := false
        closer_look_reason := none
        confidence := pyRound2 (min 1 ((det.confidence + s) / 2))
        bounding_box := some det.bbox
        voice_context := vc } := by
  obtain ⟨hs, -, hq⟩ := findBest_some det.class_name det.bbox qwens [] s i q hfb
  refine ⟨hs, hq, ?_, ?_⟩
  · intro p hp hgt
    have := findBest_fold_ge det.class_name det.bbox [] qwens.enum
      ((0 : ℚ), none) p hp (by simp) hgt
    have hs1 : (qwens.enum.foldl (findBestStep det.class_name det.bbox [])
        ((0 : ℚ), none)).1 = s := by
      rw [show qwens.enum.foldl (findBestStep det.class_name det.bbox [])
        ((0 : ℚ), none) = (s, some (i, q)) from hfb]
    rwa [hs1] at this
  · show ((mergeLoop vc qwens (det :: dets) []).1 ++ _).head? = _
    simp only [mergeLoop, mergeOne, hfb]
    rfl

/-- Spatial detection of the spec's fuser scenario. -/
def chairDet : RawDet :=
  { class_name := "chair", confidence := 1/2, bbox := [0, 0, 1, 1],
    category := "furniture" }

/-- Semantic object "Red office chair" whose box overlaps `chairDet` with
IoU 0.6, giving combined score `0.7*0.6 + 0.3*1.0 = 0.72`. -/
def qRed : QwenObj :=
  { name := some "Red office chair", description := some "Tall red office chair",
    category := some "furniture", is_book := some false, bbox := some [0, 0, 3/5, 1] }

/-- C3 witness: the spec scenario — a spatial detection with confidence 0.5
matched at combined score 0.72 is fused with the semantic object's fields and
confidence exactly `(0.5 + 0.72)/2 = 0.61`. -/
theorem merge_matched_witness :
    findBest chairDet.class_name chairDet.bbox [qRed] [] = (18/25, some (0, qRed)) ∧
    (18 : ℚ)/25 = 72/100 ∧
    (_merge_detections [chairDet] [qRed] none).head? = some
      { name := "Red office chair"
        description := "Tall red office chair"
        category := "furniture"
        is_book := false
        needs_closer_look := false
        closer_look_reason := none
        confidence := 61/100
        bounding_box := some [0, 0, 1, 1]
        voice_context := none } := by
  have h := merge_matched_takes_semantic chairDet [] [qRed] none (18/25) 0 qRed
    (by decide)
  refine ⟨by decide, by decide, ?_⟩
  rw [h.2.2.2]
  decide

/-- Semantic object matching `chairDet` with IoU 1/3, giving combined score
`0.7/3 + 0.3 = 8/15` and average confidence `31/60`, which has no exact
two-decimal representation. -/
def qThird : QwenObj :=
  { name := some "chair", description := some "A chair",
    category := some "furniture", is_book := some false, bbox := some [0, 0, 1/3, 1] }

/-- C3 counterexample: the fused confidence is *not* the exact average of the
spatial confidence and the match score: at score `8/15` and confidence `1/2`
the average is `31/60 ≈ 0.5167` but the code emits `round(31/60, 2) = 0.52`. -/
theorem merge_confidence_rounded :
    combinedScore chairDet.class_name chairDet.bbox qThird = 8/15 ∧
    (_merge_detections [chairDet] [qThird] none).map (fun o => o.confidence) =
      [13/25] ∧
    (13/25 : ℚ) ≠ (1/2 + 8/15) / 2 := by
  refine ⟨by decide, by decide, by decide⟩

theorem analyzeLoop_length (env : PipelineEnv) (vcs : Nat → Option String)
    (qcount : Nat) :
    ∀ (frames : List QualityFrame) (i : Nat),
      (analyzeLoop env vcs qcount i frames).1.length = frames.length := by
  intro frames
  induction frames with
  | nil => intro i; rfl
  | cons f rest ih => intro i; simp [analyzeLoop, ih]

theorem analyzeLoop_get (env : PipelineEnv) (vcs : Nat → Option String)
    (qcount : Nat) :
    ∀ (frames : List QualityFrame) (i0 k : Nat) (f : QualityFrame),
      frames.get? k = some f →
      (analyzeLoop env vcs qcount i0 frames).1.get? k = some
        { frame_index := i0 + k, frame_path := f.path,
          objects := lvs_analyze_frame env f.path (vcs (i0 + k)),
          frame_timestamp := f.ts, voice_context := vcs (i0 + k) } := by
  intro frames
  induction frames with
  | nil => intro i0 k f hf; simp at hf
  | cons g rest ih =>
      intro i0 k f hf
      cases k with
      | zero =>
          simp only [List.get?_cons_zero, Option.some.injEq] at hf
          subst hf
          simp [analyzeLoop]
      | succ k =>
          simp only [List.get?_cons_succ] at hf
          have hidx : i0 + 1 + k = i0 + (k + 1) := by omega
          have h2 := ih (i0 + 1) k f hf
          rw [hidx] at h2
          simpa only [analyzeLoop, List.get?_cons_succ] using h2

/-- C5: a semantic-describer backend failure is absorbed inside the local
vision service: the pipeline still emits its full event sequence ending in a
"done" event, analyzes every quality frame, and the affected frame contributes
exactly the spatial-only fusion (`_merge_detections` against an empty semantic
list). -/
theorem process_video_absorbs_describer_failure (env : PipelineEnv)
    (frames : List QualityFrame) (vcs : Nat → Option String) :
    ((process_video env frames vcs).2.2.getLast? =
      some { status := "done", progress := 1 }) ∧
    ((process_video env frames vcs).2.1.length = frames.length) ∧
    (∀ (k : Nat) (f : QualityFrame), frames.get? k = some f →
      env.qwen f.path = Except.error () → env.readable f.path = true →
      ∃ res, (process_video env frames vcs).2.1.get? k = some res ∧
        res.objects = _merge_detections (env.yolo f.path) [] (vcs k)) := by
  refine ⟨?_, ?_, ?_⟩
  · simp only [process_video]
    rw [List.getLast?_append, List.getLast?_append]
    rfl
  · exact analyzeLoop_length env vcs frames.length frames 0
  · intro k f hf herr hread
    refine ⟨_, analyzeLoop_get env vcs frames.length frames 0 k f hf, ?_⟩
    show lvs_analyze_frame env f.path (vcs (0 + k)) = _
    rw [Nat.zero_add]
    unfold lvs_analyze_frame
    rw [hread]
    simp only [Bool.true_eq_false, if_false]
    rw [herr]
    rfl

/-- Environment whose describer backend always fails. -/
def envFail : PipelineEnv :=
  { readable := fun _ => true, yolo := fun _ => [chairDet],
    qwen := fun _ => Except.error () }

/-- C5 witness: one frame whose describer call fails — the pipeline still ends
with the "done" event and the frame carries the spatial-only fusion. -/
theorem process_video_witness :
    ([⟨"f0", 0⟩] : List QualityFrame).get? 0 = some ⟨"f0", 0⟩ ∧
    envFail.qwen "f0" = Except.error () ∧
    envFail.readable "f0" = true ∧
    ((process_video envFail [⟨"f0", 0⟩] (fun _ => none)).2.2.getLast? =
      some { status := "done", progress := 1 }) ∧
    (∃ res, (process_video envFail [⟨"f0", 0⟩] (fun _ => none)).2.1.get? 0 =
        some res ∧
      res.objects = _merge_detections (envFail.yolo "f0") [] none) := by
  have h := process_video_absorbs_describer_failure envFail [⟨"f0", 0⟩]
    (fun _ => none)
  exact ⟨rfl, rfl, rfl, h.1, h.2.2 0 ⟨"f0", 0⟩ rfl rfl rfl⟩

theorem mergeOne_name_ne_empty (vc : Option String) (qwens : List QwenObj)
    (used : List Nat) (det : RawDet) (hdet : det.class_name ≠ "")
    (hq : ∀ q ∈ qwens, q.name ≠ some "") :
    ((mergeOne vc qwens used det).1).name ≠ "" := by
  simp only [mergeOne]
  cases hfb : (findBest det.class_name det.bbox qwens used).2 with
  | none => simpa using pyTitle_ne_empty _ (pyReplaceUnderscore_ne_empty _ hdet)
  | some iq =>
      obtain ⟨i, q⟩ := iq
      have hmem : q ∈ qwens := by
        have heq : findBest det.class_name det.bbox qwens used =
            ((findBest det.class_name det.bbox qwens used).1, some (i, q)) :=
          Prod.ext rfl hfb
        exact (findBest_some det.class_name det.bbox qwens used _ i q heq).2.2
      simp only
      cases hqn : q.name with
      | none => simpa [hqn] using pyTitle_ne_empty _ hdet
      | some s =>
          have : some s ≠ some "" := hqn ▸ hq q hmem
          simpa [hqn] using fun hcontra => this (by rw [hcontra])

theorem mergeLoop_mem (vc : Option String) (qwens : List QwenObj) :
    ∀ (dets : List RawDet) (used : List Nat) (o : DetectedObject),
      o ∈ (mergeLoop vc qwens dets used).1 →
      ∃ det ∈ dets, ∃ u, o = (mergeOne vc qwens u det).1 := by
  intro dets
  induction dets with
  | nil => intro used o ho; simp [mergeLoop] at ho
  | cons det rest ih =>
      intro used o ho
      simp only [mergeLoop, List.mem_cons] at ho
      rcases ho with rfl | ho
      · exact ⟨det, List.mem_cons_self _ _, used, rfl⟩
      · obtain ⟨d, hd, u, hu⟩ := ih _ o ho
        exact ⟨d, List.mem_cons_of_mem _ hd, u, hu⟩

theorem merge_detections_mem (dets : List RawDet) (qwens : List QwenObj)
    (vc : Option String) (o : DetectedObject)
    (ho : o ∈ _merge_detections dets qwens vc) :
    (∃ det ∈ dets, ∃ u, o = (mergeOne vc qwens u det).1) ∨
    (∃ q ∈ qwens, o = qwenOnly vc q) := by
  simp only [_merge_detections, List.mem_append] at ho
  rcases ho with h | h
  · exact Or.inl (mergeLoop_mem vc qwens dets [] o h)
  · right
    rw [List.mem_filterMap] at h
    obtain ⟨p, hp, hfp⟩ := h
    by_cases hin : p.1 ∈ (mergeLoop vc qwens dets []).2
    · simp [hin] at hfp
    · simp only [hin, if_false] at hfp
      exact ⟨p.2, enumFrom_snd_mem qwens 0 p hp, (Option.some.injEq _ _ ▸ hfp).symm⟩

theorem foldl_pick_mem :
    ∀ (l : List DetectedObject) (acc : DetectedObject),
      l.foldl (fun acc b => if acc.confidence < b.confidence then b else acc) acc ∈
        acc :: l := by
  intro l
  induction l with
  | nil => intro acc; exact List.mem_cons_self _ _
  | cons b rest ih =>
      intro acc
      rw [List.foldl_cons]
      rcases List.mem_cons.mp (ih (if acc.confidence < b.confidence then b else acc))
        with h | h
      · rw [h]
        by_cases hc : acc.confidence < b.confidence
        · rw [if_pos hc]
          exact List.mem_cons_of_mem _ (List.mem_cons_self _ _)
        · rw [if_neg hc]
          exact List.mem_cons_self _ _
      · exact List.mem_cons_of_mem _ (List.mem_cons_of_mem _ h)

theorem dedupAux_mem :
    ∀ (fuel : Nat) (l : List DetectedObject) (x : DetectedObject),
      x ∈ dedupAux fuel l → x ∈ l := by
  intro fuel
  induction fuel with
  | zero => intro l x hx; simp [dedupAux] at hx
  | succ fuel ih =>
      intro l x hx
      cases l with
      | nil => simp [dedupAux] at hx
      | cons a rest =>
          simp only [dedupAux, List.mem_cons] at hx
          rcases hx with rfl | hx
          · rcases List.mem_cons.mp (foldl_pick_mem _ a) with h | h
            · rw [h]
              exact List.mem_cons_self _ _
            · exact List.mem_cons_of_mem _ (List.mem_of_mem_filter h)
          · exact List.mem_cons_of_mem _ (List.mem_of_mem_filter (ih _ x hx))

theorem merge_name_ne_empty (dets : List RawDet) (qwens : List QwenObj)
    (vc : Option String)
    (hdets : ∀ d ∈ dets, d.class_name ≠ "")
    (hq : ∀ q ∈ qwens, q.name ≠ some "") :
    ∀ o ∈ _merge_detections dets qwens vc, o.name ≠ "" := by
  intro o ho
  rcases merge_detections_mem dets qwens vc o ho with ⟨det, hdet, u, rfl⟩ | ⟨q, hqm, rfl⟩
  · exact mergeOne_name_ne_empty vc qwens u det (hdets det hdet) hq
  · simp only [qwenOnly]
    cases hqn : q.name with
    | none => simp
    | some s =>
        have : some s ≠ some "" := hqn ▸ hq q hqm
        simpa using fun hcontra => this (by rw [hcontra])

/-- A per-frame fusion result used to drive the deduplicator. -/
def mergeFrame (vc : Option String) (ip : Nat × (List RawDet × List QwenObj)) :
    FrameAnalysisResult :=
  { frame_index := ip.1, frame_path := "",
    objects := _merge_detections ip.2.1 ip.2.2 vc,
    frame_timestamp := 0, voice_context := vc }

/-- C7 (amended): every pipeline object (fused per frame, semantic-only
leftovers included, then cross-frame deduplicated) has a non-empty name
*provided* every spatial class name is non-empty and no semantic object
carries a present-but-empty `"name"` (the code fills absent names with
`class_name.title()` / `"Unknown"` but passes an empty string through). -/
theorem pipeline_nonempty_names (pairs : List (List RawDet × List QwenObj))
    (vc : Option String)
    (hdets : ∀ p ∈ pairs, ∀ d ∈ p.1, d.class_name ≠ "")
    (hqwens : ∀ p ∈ pairs, ∀ q ∈ p.2, q.name ≠ some "") :
    (∀ p ∈ pairs, ∀ o ∈ _merge_detections p.1 p.2 vc, o.name ≠ "") ∧
    (∀ o ∈ _deduplicate_objects (pairs.enum.map (mergeFrame vc)), o.name ≠ "") := by
  have hper : ∀ p ∈ pairs, ∀ o ∈ _merge_detections p.1 p.2 vc, o.name ≠ "" :=
    fun p hp => merge_name_ne_empty p.1 p.2 vc (hdets p hp) (hqwens p hp)
  refine ⟨hper, ?_⟩
  intro o ho
  have hflat : o ∈ flattenObjects (pairs.enum.map (mergeFrame vc)) :=
    dedupAux_mem _ _ o ho
  simp only [flattenObjects, List.mem_flatten, List.map_map, List.mem_map] at hflat
  obtain ⟨l, ⟨ip, hip, hl⟩, hol⟩ := hflat
  rw [← hl] at hol
  exact hper ip.2 (enumFrom_snd_mem pairs 0 ip hip) o hol

/-- C7 witness: a concrete frame with one spatial and one semantic detection
satisfying the amended hypotheses. -/
theorem pipeline_nonempty_names_witness :
    (∀ o ∈ _merge_detections [chairDet] [qRed] none, o.name ≠ "") ∧
    (∀ o ∈ _deduplicate_objects ([([chairDet], [qRed])].enum.map (mergeFrame none)),
      o.name ≠ "") := by
  have h := pipeline_nonempty_names [([chairDet], [qRed])] none (by decide) (by decide)
  exact ⟨h.1 ([chairDet], [qRed]) (List.mem_cons_self _ _), h.2⟩

/-- Semantic object carrying a present-but-empty name. -/
def qEmptyName : QwenObj := { name := some "", bbox := some [0, 0, 1, 1] }

/-- C7 counterexample: a semantic object whose `"name"` key holds the empty
string is matched (IoU 1, combined score 0.7 > 0.3) and its empty name is
taken verbatim, so the fuser emits a `DetectedObject` with `name = ""`. -/
theorem merge_empty_name :
    (_merge_detections [chairDet] [qEmptyName] none).map (fun o => o.name) = [""] ∧
    (∃ o ∈ _merge_detections [chairDet] [qEmptyName] none, o.name = "") := by
  refine ⟨by decide, by decide⟩

theorem filterGo_not_near_seen (thr : ℚ) :
    ∀ (frames : List RawFrame) (seen : List Nat) (g : RawFrame),
      g ∈ filterGo thr seen frames → ∀ h ∈ seen, ¬ (hamming g.phash h < 10) := by
  intro frames
  induction frames with
  | nil => intro seen g hg; simp [filterGo] at hg
  | cons f rest ih =>
      intro seen g hg h hseen
      simp only [filterGo] at hg
      split_ifs at hg with h1 h2 h3
      · exact ih _ g hg h hseen
      · exact ih _ g hg h hseen
      · exact ih _ g hg h hseen
      · rcases List.mem_cons.mp hg with rfl | hg'
        · intro hlt
          exact h3 (List.any_eq_true.mpr ⟨h, hseen, by simpa using hlt⟩)
        · exact ih _ g hg' h (List.mem_append_left _ hseen)

theorem filter_quality_pairwise_aux (thr : ℚ) :
    ∀ (frames : List RawFrame) (seen : List Nat),
      (filterGo thr seen frames).Pairwise
        (fun f g => 10 ≤ hamming f.phash g.phash) := by
  intro frames
  induction frames with
  | nil => intro seen; simp [filterGo]
  | cons f rest ih =>
      intro seen
      simp only [filterGo]
      split_ifs with h1 h2 h3
      · exact ih _
      · exact ih _
      · exact ih _
      · refine List.Pairwise.cons ?_ (ih _)
        intro g hg
        have hnot := filterGo_not_near_seen thr rest (seen ++ [f.phash]) g hg f.phash
          (List.mem_append_right _ (List.mem_cons_self _ _))
        have h10 : 10 ≤ hamming g.phash f.phash := le_of_not_lt hnot
        rwa [hamming_comm] at h10

/-- C9: every pair of frames accepted by the quality filter is at perceptual-
hash Hamming distance ≥ 10 (the duplicate threshold), because each candidate
is compared against *all* previously accepted hashes of the run. -/
theorem filter_quality_hamming (thr : ℚ) (frames : List RawFrame) :
    _filter_quality_frames thr frames =
      (filterGo thr [] frames).map (fun f => (f.path, f.ts)) ∧
    (filterGo thr [] frames).Pairwise
      (fun f g => 10 ≤ hamming f.phash g.phash) :=
  ⟨rfl, filter_quality_pairwise_aux thr frames []⟩

theorem mergeOne_bbox (vc : Option String) (qwens : List QwenObj)
    (used : List Nat) (det : RawDet) :
    ((mergeOne vc qwens used det).1).bounding_box = some det.bbox := by
  simp only [mergeOne]
  cases (findBest det.class_name det.bbox qwens used).2 with
  | none => rfl
  | some iq => obtain ⟨i, q⟩ := iq; rfl

theorem mergeLoop_length (vc : Option String) (qwens : List QwenObj) :
    ∀ (dets : List RawDet) (used : List Nat),
      (mergeLoop vc qwens dets used).1.length = dets.length := by
  intro dets
  induction dets with
  | nil => intro used; rfl
  | cons det rest ih => intro used; simp [mergeLoop, ih]

theorem mergeLoop_get_bbox (vc : Option String) (qwens : List QwenObj) :
    ∀ (dets : List RawDet) (used : List Nat) (k : Nat) (det : RawDet),
      dets.get? k = some det →
      ∃ o, (mergeLoop vc qwens dets used).1.get? k = some o ∧
        o.bounding_box = some det.bbox := by
  intro dets
  induction dets with
  | nil => intro used k det h; simp at h
  | cons d rest ih =>
      intro used k det h
      cases k with
      | zero =>
          simp only [List.get?_cons_zero, Option.some.injEq] at h
          subst h
          exact ⟨_, rfl, mergeOne_bbox vc qwens used _⟩
      | succ k =>
          simp only [List.get?_cons_succ] at h
          obtain ⟨o, ho, hb⟩ := ih _ k det h
          exact ⟨o, by simpa [mergeLoop] using ho, hb⟩

/-- C10: every fused object originating from a spatial detection keeps that
detection's bounding box (even when it consumed a semantic object with its
own box), the output past the spatial prefix is exactly the unconsumed
semantic-only objects, and each of those carries the semantic object's own
(optional) box. -/
theorem merge_bbox_provenance (dets : List RawDet) (qwens : List QwenObj)
    (vc : Option String) :
    (∀ (k : Nat) (det : RawDet), dets.get? k = some det →
      ∃ o, (_merge_detections dets qwens vc).get? k = some o ∧
        o.bounding_box = some det.bbox) ∧
    ((_merge_detections dets qwens vc).drop dets.length =
      qwens.enum.filterMap
        (fun p => if p.1 ∈ (mergeLoop vc qwens dets []).2 then none
          else some (qwenOnly vc p.2))) ∧
    (∀ q : QwenObj, (qwenOnly vc q).bounding_box = q.bbox) := by
  refine ⟨?_, ?_, fun q => rfl⟩
  · intro k det h
    obtain ⟨o, ho, hb⟩ := mergeLoop_get_bbox vc qwens dets [] k det h
    refine ⟨o, ?_, hb⟩
    have hk : k < (mergeLoop vc qwens dets []).1.length := by
      by_contra hge
      rw [List.get?_eq_none.mpr (le_of_not_lt hge)] at ho
      cases ho
    show ((mergeLoop vc qwens dets []).1 ++ _).get? k = some o
    rw [List.get?_append hk]
    exact ho
  · show ((mergeLoop vc qwens dets []).1 ++ _).drop dets.length = _
    rw [← mergeLoop_length vc qwens dets []]
    exact List.drop_left _ _

/-- Far-away semantic object the spatial detection cannot match. -/
def qFar : QwenObj :=
  { name := some "Sofa", description := some "A sofa",
    bbox := some [9/10, 9/10, 1, 1] }

/-- C10 witness: concrete fusion where the matched spatial detection keeps its
own box and the unmatched semantic object appears with its own box. -/
theorem merge_bbox_witness :
    (∃ o, (_merge_detections [chairDet] [qFar] none).get? 0 = some o ∧
      o.bounding_box = some chairDet.bbox) ∧
    ((_merge_detections [chairDet] [qFar] none).drop 1 =
      [qwenOnly none qFar]) ∧
    (qwenOnly none qFar).bounding_box = some [9/10, 9/10, 1, 1] := by
  have h := merge_bbox_provenance [chairDet] [qFar] none
  refine ⟨h.1 0 chairDet rfl, ?_, by decide⟩
  have h2 := h.2.1
  show List.drop ([chairDet] : List RawDet).length _ = _
  rw [h2]
  decide

/-- Invariant of the `seen`/`mentions` state of `detect_room_mentions`: every
emitted mention's key is in `seen`, and no two emitted mentions share a key. -/
def mentionInv (st : List (String × ℚ) × List RoomMention) : Prop :=
  (∀ m ∈ st.2, (m.room_name, pyRound1 m.timestamp) ∈ st.1) ∧
  st.2.Pairwise (fun m m' => ¬(m.room_name = m'.room_name ∧
    pyRound1 m.timestamp = pyRound1 m'.timestamp))

theorem addMention_inv (conf : ℚ) (seg : TranscribedSegment)
    (st : List (String × ℚ) × List RoomMention) (rn : String)
    (h : mentionInv st) : mentionInv (addMention conf seg st rn) := by
  unfold addMention
  by_cases hk : (rn, pyRound1 seg.start) ∈ st.1
  · simpa [hk] using h
  · rw [if_neg hk]
    constructor
    · intro m hm
      rcases List.mem_append.mp hm with hm | hm
      · exact List.mem_append_left _ (h.1 m hm)
      · rw [List.mem_singleton] at hm
        subst hm
        exact List.mem_append_right _ (List.mem_singleton.mpr rfl)
    · rw [List.pairwise_append]
      refine ⟨h.2, List.pairwise_singleton _ _, ?_⟩
      intro m hm m' hm'
      rw [List.mem_singleton] at hm'
      subst hm'
      rintro ⟨hname, hts⟩
      apply hk
      have hkey := h.1 m hm
      simp only at hname hts
      rwa [← hname, ← hts]

theorem foldl_mention_inv {α : Type}
    (step : (List (String × ℚ) × List RoomMention) → α →
      List (String × ℚ) × List RoomMention)
    (hstep : ∀ st a, mentionInv st → mentionInv (step st a)) :
    ∀ (l : List α) (st : List (String × ℚ) × List RoomMention),
      mentionInv st → mentionInv (l.foldl step st) := by
  intro l
  induction l with
  | nil => intro st h; exact h
  | cons a rest ih => intro st h; exact ih _ (hstep st a h)

theorem processSeg_inv (st : List (String × ℚ) × List RoomMention)
    (seg : TranscribedSegment) (h : mentionInv st) :
    mentionInv (processSeg st seg) := by
  unfold processSeg
  refine foldl_mention_inv _ (fun st a hst => addMention_inv _ _ _ _ hst) _ _
    (foldl_mention_inv _ ?_ _ _ h)
  intro st a hst
  by_cases hlen : a.length > 40
  · simpa [hlen] using hst
  · simpa [hlen] using addMention_inv (9/10) seg st a hst

/-- Segment of the spec's room-mention scenario. -/
def segKitchen : TranscribedSegment :=
  { text := "this is the kitchen, pretty small", start := 5, stop := 8 }

/-- The single mention that scenario yields. -/
def mKitchen : RoomMention :=
  { room_name := "kitchen", timestamp := 5,
    raw_text := "this is the kitchen, pretty small", confidence := 9/10 }

/-- C8 (amended): no two emitted room mentions share the
`(lowercased name, timestamp rounded to one decimal)` key — in particular a
known-room match never re-emits a trigger match of the same segment at 0.7 —
and the scenario segment yields exactly one mention, at confidence 0.9.
(When an *earlier* segment at the same rounded timestamp already claimed the
key, the trigger mention is suppressed entirely; see the counterexample.) -/
theorem room_mention_dedup :
    (∀ t : TranscriptionResult, (detect_room_mentions t).Pairwise
      (fun m m' => ¬(m.room_name = m'.room_name ∧
        pyRound1 m.timestamp = pyRound1 m'.timestamp))) ∧
    detect_room_mentions { segments := [segKitchen] } = [mKitchen] := by
  constructor
  · intro t
    have h : mentionInv (t.segments.foldl processSeg ([], [])) :=
      foldl_mention_inv processSeg processSeg_inv t.segments ([], [])
        ⟨fun m hm => absurd hm (List.not_mem_nil m), List.Pairwise.nil⟩
    exact h.2
  · decide

/-- First segment: a bare known-room mention at timestamp 0. -/
def segPlain : TranscribedSegment := { text := "kitchen", start := 0, stop := 1 }

/-- Second segment: a trigger-phrase mention of the same room whose start
(0.04) rounds to the same key 0.0. -/
def segTrig : TranscribedSegment :=
  { text := "this is the kitchen", start := 1/25, stop := 2 }

/-- The only mention the two segments yield: confidence 0.7 from segment 1. -/
def mPlain : RoomMention :=
  { room_name := "kitchen", timestamp := 0, raw_text := "kitchen",
    confidence := 7/10 }

/-- C8 counterexample: segment 2 contains a trigger-phrase match for
"kitchen", yet *zero* mentions with confidence 0.9 are emitted: the key
`("kitchen", 0.0)` was already claimed by the earlier segment's known-room
match (0.7) at the same rounded timestamp, so the claimed "exactly one
RoomMention with confidence 0.9" fails. -/
theorem room_mention_trigger_blocked :
    (triggerFinditer segTrig.text).map pyStrip = ["kitchen"] ∧
    detect_room_mentions { segments := [segPlain, segTrig] } = [mPlain] ∧
    (∀ m ∈ detect_room_mentions { segments := [segPlain, segTrig] },
      m.confidence ≠ 9/10) := by
  refine ⟨by decide, by decide, by decide⟩
